import Mathlib

/-!
Shallow embedding of src/imutil/dicom.cpp, the SIFT3D DICOM volume assembly
and decomposition core, together with theorems settling the specification
claims. External collaborators (the DCMTK toolkit, the file system, the
owning Image container) are modelled by records of their observable answers;
machine floating point values are modelled exactly over the rationals, and
the claims evaluate them only where the float computation of the source is
exact.
-/

namespace Sift3dDicom

/-- Modelled from the spec: the public operations return a binary success or
failure signal; the numeric codes live in macros.h, outside the provided
sources. -/
def SIFT3D_SUCCESS : Int := 0

/-- Modelled from the spec: failure return code, see SIFT3D_SUCCESS. -/
def SIFT3D_FAILURE : Int := -1

/-- Directory separator of the Unix build of dicom.cpp. -/
def sep : String := "/"

/-- Modelled from the spec: ext_dcm, the recognized single-slice file
extension (defined in imutil, outside the provided sources). -/
def ext_dcm : String := "dcm"

/-- Embedding of the Image struct of imutil: a dense 4D volume with
dimensions, real-world spacing and voxel data addressed by x, y, z and
channel. Buffer strides are not modelled; voxel storage is a total map. -/
structure Image where
  nx : Nat
  ny : Nat
  nz : Nat
  nc : Nat
  ux : ℚ
  uy : ℚ
  uz : ℚ
  data : Nat → Nat → Nat → Nat → ℚ

/-- Modelled from the spec: init_im (imutil.c, outside the provided sources)
initializes an empty image; zero dimensions, unit spacing, zero buffer. The
buffer cells a C program would leave indeterminate are fixed at zero here,
and no proved claim observes such a cell. -/
def initIm : Image := ⟨0, 0, 0, 0, 1, 1, 1, fun _ _ _ _ => 0⟩

/-- Observable answers of the DCMTK collaborators (DcmFileFormat, DcmDataset,
DicomImage) for one file on disk. A numeric tag that is missing or fails to
parse is a none, matching a bad status from findAndGetFloat64; the string
tags are none exactly when findAndGetString fails. frameData models
DicomImage.getOutputData for each frame: none is a NULL return, otherwise a
map from the flat in-plane index to the rendered sample cast to float. -/
structure DcmFile where
  loadOk : Bool
  seriesUID : Option String
  instanceRaw : Option String
  imageOk : Bool
  isMonochrome : Bool
  width : Nat
  height : Nat
  frameCount : Nat
  pixelSpacing : Option ℚ
  heightWidthRatio : ℚ
  sliceThickness : Option ℚ
  frameData : Nat → Option (Nat → ℚ)

/-- File system access: a path maps to what DCMTK reports for it; a missing
path behaves as a failed loadFile. -/
def getFile (fs : String → Option DcmFile) (path : String) : DcmFile :=
  match fs path with
  | some f => f
  | none =>
    { loadOk := false, seriesUID := none, instanceRaw := none, imageOk := false,
      isMonochrome := false, width := 0, height := 0, frameCount := 0,
      pixelSpacing := none, heightWidthRatio := 0, sliceThickness := none,
      frameData := fun _ => none }

/-- Decimal digit accumulator of the atoll model: consume leading decimal
digits, stopping at the first non-digit. -/
def digitsVal : List Char → Int → Int
  | [], acc => acc
  | c :: cs, acc =>
    if c.isDigit then digitsVal cs (acc * 10 + ((c.toNat : Int) - 48)) else acc

/-- Embedding of C atoll as applied to the instance number string: optional
leading white space and sign, then the leading run of decimal digits; an
empty run gives 0 and trailing garbage is ignored. Overflow is not
modelled. -/
def atoll (s : String) : Int :=
  match s.data.dropWhile (fun c => c == ' ' || c == '\t' || c == '\n' || c == '\r') with
  | '-' :: rest => - digitsVal rest 0
  | '+' :: rest => digitsVal rest 0
  | rest => digitsVal rest 0

/-- Embedding of the fields of the Dicom helper class. The C++ constructor
leaves the numeric members indeterminate until assigned; the embedding
zero-fills them, and no proved claim observes a member the constructor did
not assign. The instance number member is named inst because instance is
reserved in Lean. -/
structure Dicom where
  filename : String
  seriesUID : String
  inst : Int
  ux : ℚ
  uy : ℚ
  uz : ℚ
  nx : Nat
  ny : Nat
  nz : Nat
  nc : Nat
  valid : Bool
deriving DecidableEq

/-- Embedding of the constructor Dicom::Dicom(std::string path): each early
return of the C++ body yields an invalid record carrying the members
assigned so far; reaching the end of the body marks the record valid. -/
def Dicom.ofFile (path : String) (f : DcmFile) : Dicom :=
  let d0 : Dicom := ⟨path, "", -1, 0, 0, 0, 0, 0, 0, 0, false⟩
  if f.loadOk = false then d0 else
  match f.seriesUID with
  | none => d0
  | some suid =>
    let d1 := { d0 with seriesUID := suid }
    match f.instanceRaw with
    | none => d1
    | some instStr =>
      let d2 := { d1 with inst := atoll instStr }
      if f.imageOk = false then d2 else
      if f.isMonochrome = false then d2 else
      let d3 := { d2 with nc := 1 }
      let d4 := { d3 with nx := f.width, ny := f.height, nz := f.frameCount }
      if f.width < 1 ∨ f.height < 1 ∨ f.frameCount < 1 then d4 else
      match f.pixelSpacing with
      | none => d4
      | some ps =>
        let d5 := { d4 with ux := ps }
        if ps ≤ 0 then d5 else
        let d6 := { d5 with uy := ps * f.heightWidthRatio }
        if ps * f.heightWidthRatio ≤ 0 then d6 else
        match f.sliceThickness with
        | none => d6
        | some st =>
          let d7 := { d6 with uz := st }
          if st ≤ 0 then d7 else
          { d7 with valid := true }

/-- Embedding of Dicom::eqSeries: the C++ body returns
seriesUID.compare(dicom.seriesUID), an int implicitly converted to bool, so
the answer is true exactly when the two series identifiers DIFFER. -/
def Dicom.eqSeries (d e : Dicom) : Bool := d.seriesUID ≠ e.seriesUID

/-- Insertion step of the instance number sort. -/
def insertInst (d : Dicom) : List Dicom → List Dicom
  | [] => [d]
  | e :: es => if d.inst < e.inst then d :: e :: es else e :: insertInst d es

/-- Embedding of std::sort with the Dicom comparison on instance numbers.
std::sort is an unstable comparison sort whose tie behaviour the source
leaves unspecified; on the distinct keys appearing in the proved claims
every comparison sort agrees, and this insertion sort is the
representative. -/
def sortByInst : List Dicom → List Dicom
  | [] => []
  | d :: ds => insertInst d (sortByInst ds)

/-- Modelled from the spec: im_get_format(filename) == DICOM holds for the
entries whose extension matches the recognized single-slice extension
(im_get_format lives in imutil.c, outside the provided sources). -/
def hasDcmExt (s : String) : Bool := s.data.reverse.take 4 == ['m', 'c', 'd', '.']

/-- One frame copy of read_dcm_cpp: destination voxel (x, y, z, 0) receives
frameData[x + y * nx] at every in-plane coordinate of the resized image. -/
def copyFrame (im : Image) (z : Nat) (fd : Nat → ℚ) : Image :=
  { im with data := fun x y zz c =>
      if x < im.nx ∧ y < im.ny ∧ zz = z ∧ c = 0 then fd (x + y * im.nx)
      else im.data x y zz c }

/-- Frame loop of read_dcm_cpp over frames i, i + 1, ... while rem counts
down; a frame whose pixel data renders NULL aborts, keeping the copies made
so far. -/
def copyFrames (f : DcmFile) (i : Nat) (im : Image) : Nat → Int × Image
  | 0 => (SIFT3D_SUCCESS, im)
  | rem + 1 =>
    match f.frameData i with
    | none => (SIFT3D_FAILURE, im)
    | some fd => copyFrames f (i + 1) (copyFrame im i fd) rem

/-- Embedding of read_dcm_cpp: construct the Dicom record, reject invalid
data or a failed image open, resize the destination to the file dimensions
and spacing, then copy every frame. im_resize never fails in the model
(allocation failure is not modelled) and freshly allocated cells keep the
previous map, standing for indeterminate buffer contents no proved claim
observes. -/
def read_dcm_cpp (f : DcmFile) (path : String) (im : Image) : Int × Image :=
  let dicom := Dicom.ofFile path f
  if dicom.valid = false then (SIFT3D_FAILURE, im) else
  if f.imageOk = false then (SIFT3D_FAILURE, im) else
  let im1 : Image :=
    { im with
      nx := dicom.nx
      ny := dicom.ny
      nz := dicom.nz
      nc := dicom.nc
      ux := dicom.ux
      uy := dicom.uy
      uz := dicom.uz }
  copyFrames f 0 im1 dicom.nz

/-- Embedding of read_dcm: the CATCH_EXCEPTIONS wrapper adds no behaviour to
the pure model. -/
def read_dcm (f : DcmFile) (path : String) (im : Image) : Int × Image :=
  read_dcm_cpp f path im

/-- Candidate collection loop of read_dcm_dir_cpp: entries without the DICOM
extension are silently skipped; a file whose Dicom record is invalid aborts
the whole read, rendered as none. -/
def collectDicoms (fs : String → Option DcmFile) (dir : String) :
    List String → Option (List Dicom)
  | [] => some []
  | name :: rest =>
    if hasDcmExt name then
      let full := dir ++ sep ++ name
      let d := Dicom.ofFile full (getFile fs full)
      if d.valid then
        match collectDicoms fs dir rest with
        | none => none
        | some ds => some (d :: ds)
      else none
    else collectDicoms fs dir rest

/-- Series membership loop of read_dcm_dir_cpp: the read fails as a series
mismatch when eqSeries answers false for some later record against the
first one. -/
def checkSeries : List Dicom → Bool
  | [] => true
  | first :: rest => rest.all (fun d => first.eqSeries d)

/-- Dimension check loop of read_dcm_dir_cpp against the first record. -/
def checkDims (first : Dicom) (ds : List Dicom) : Bool :=
  ds.all (fun d => d.nx == first.nx && d.ny == first.ny && d.nc == first.nc)

/-- Total z extent counted by read_dcm_dir_cpp: the sum of the per-record
frame counts. -/
def totalNz (ds : List Dicom) : Nat := (ds.map (fun d => d.nz)).sum

/-- Slice copy of the assembly loop: the whole extent of the slice image is
copied into the destination at z offset offz. -/
def copySlice (im slice : Image) (offz : Nat) : Image :=
  { im with data := fun x y z c =>
      if x < slice.nx ∧ y < slice.ny ∧ offz ≤ z ∧ z < offz + slice.nz ∧ c < slice.nc then
        slice.data x y (z - offz) c
      else im.data x y z c }

/-- Assembly loop of read_dcm_dir_cpp: every sorted record is re-read by its
file name into the slice buffer and copied at the running z offset; a failed
slice read aborts, keeping the destination as mutated so far. -/
def assembleLoop (fs : String → Option DcmFile) (im slice : Image) (offz : Nat) :
    List Dicom → Int × Image
  | [] => (SIFT3D_SUCCESS, im)
  | d :: rest =>
    match read_dcm (getFile fs d.filename) d.filename slice with
    | (st, slice1) =>
      if st = SIFT3D_SUCCESS then
        assembleLoop fs (copySlice im slice1 offz) slice1 (offz + slice1.nz) rest
      else (SIFT3D_FAILURE, im)

/-- Embedding of read_dcm_dir_cpp: collect the candidates, require a
nonempty set, run the series membership check, verify dimensions while
counting the z extent, resize the destination from the first record, sort by
instance number, and assemble. The directory existence probes stat and
S_ISDIR are not modelled: the listing stands for the entries of an existing
directory, in traversal order. -/
def read_dcm_dir_cpp (fs : String → Option DcmFile) (dir : String)
    (listing : List String) (im : Image) : Int × Image :=
  match collectDicoms fs dir listing with
  | none => (SIFT3D_FAILURE, im)
  | some ds =>
    match ds with
    | [] => (SIFT3D_FAILURE, im)
    | first :: rest =>
      if checkSeries (first :: rest) = false then (SIFT3D_FAILURE, im) else
      if checkDims first (first :: rest) = false then (SIFT3D_FAILURE, im) else
      let im1 : Image :=
        { im with
          nx := first.nx
          ny := first.ny
          nz := totalNz (first :: rest)
          nc := first.nc
          ux := first.ux
          uy := first.uy
          uz := first.uz }
      assembleLoop fs im1 initIm 0 (sortByInst (first :: rest))

/-- Embedding of read_dcm_dir: the exception wrapper adds no behaviour to
the pure model. -/
def read_dcm_dir (fs : String → Option DcmFile) (dir : String)
    (listing : List String) (im : Image) : Int × Image :=
  read_dcm_dir_cpp fs dir listing im

/-- Embedding of the Dcm_meta struct of dicom.h. -/
structure Dcm_meta where
  patient_name : String
  patient_id : String
  study_uid : String
  series_uid : String
  series_descrip : String
  instance_uid : String
  instance_num : Nat
deriving DecidableEq

/-- Default patient name literal of dicom.cpp. -/
def default_patient_name : String := "DefaultSIFT3DPatient"

/-- Default series description literal of dicom.cpp. -/
def default_series_descrip : String := "Series generated by SIFT3D"

/-- Default patient id literal of dicom.cpp. -/
def default_patient_id : String := "DefaultSIFT3DPatientID"

/-- Default instance number of dicom.cpp. -/
def default_instance_num : Nat := 1

/-- Embedding of default_Dcm_meta. dcmGenerateUniqueIdentifier is an
external facility; it is modelled by a function gen from the index of the
call (a counter threaded through the program) to the produced identifier,
and this call consumes three fresh identifiers, for study, series and
instance. -/
def default_Dcm_meta (gen : Nat → String) (ctr : Nat) : Dcm_meta × Nat :=
  ({ patient_name := default_patient_name
     patient_id := default_patient_id
     study_uid := gen ctr
     series_uid := gen (ctr + 1)
     series_descrip := default_series_descrip
     instance_uid := gen (ctr + 2)
     instance_num := default_instance_num }, ctr + 3)

/-- Embedding of set_meta_defaults: computed defaults when the caller passes
null, a verbatim struct copy otherwise. -/
def set_meta_defaults (gen : Nat → String) (ctr : Nat) (meta : Option Dcm_meta) :
    Dcm_meta × Nat :=
  match meta with
  | none => default_Dcm_meta gen ctr
  | some m => (m, ctr)

/-- Truncation toward zero, the behaviour of a C cast from a floating point
value to an integer type. -/
def ratTrunc (q : ℚ) : ℤ := if 0 ≤ q then ⌊q⌋ else -⌊-q⌋

/-- Pixel quantization performed by write_dcm_cpp:
static_cast<uint8_t>(v * 255.0f). The float product is modelled exactly over
the rationals; the claims evaluate it only where the float computation of
the source is exact, and the cast wrap-around outside [0, 256) is not
modelled. -/
def quantU8 (v : ℚ) : ℤ := ratTrunc (v * 255)

/-- Quantizer following the words of the spec, for comparison with the
code: sample = round(voxel_value * 255). -/
def quantU8_spec (v : ℚ) : ℤ := round (v * 255)

/-- External DCMTK constant UID_CTImageStorage; its value is immaterial to
every claim. -/
def UID_CTImageStorage : String := "CTImageStorage"

/-- Tags and pixel payload that write_dcm_cpp stores into the dataset it
persists. -/
structure WrittenDcm where
  imageType : String
  sopClass : String
  photometric : String
  patientName : String
  patientID : String
  studyUID : String
  seriesUID : String
  seriesDescrip : String
  instanceUID : String
  rows : Nat
  cols : Nat
  frames : Nat
  instanceNum : Nat
  sliceLoc : ℚ
  psX : ℚ
  psY : ℚ
  thickness : ℚ
  pixelData : Nat → ℤ

/-- Embedding of write_dcm_cpp: reject non-monochrome images, resolve the
metadata, populate the dataset tags — Rows from nx, Columns from ny,
NumberOfFrames from nz — and quantize the pixel volume to 8-bit samples in
the flat array indexed by x + y * nx + z * nx * ny. The model recovers the
coordinates of a flat index by division and remainder, which agrees with the
loop of the source at every index the loop writes. External tag-write and
save failures are not modelled. Returns the written dataset and the
generator counter. -/
def write_dcm_cpp (gen : Nat → String) (ctr : Nat) (im : Image)
    (meta : Option Dcm_meta) : Option WrittenDcm × Nat :=
  if im.nc ≠ 1 then (none, ctr) else
  match set_meta_defaults gen ctr meta with
  | (m, c1) =>
    (some
      { imageType := "DERIVED"
        sopClass := UID_CTImageStorage
        photometric := "MONOCHROME2"
        patientName := m.patient_name
        patientID := m.patient_id
        studyUID := m.study_uid
        seriesUID := m.series_uid
        seriesDescrip := m.series_descrip
        instanceUID := m.instance_uid
        rows := im.nx
        cols := im.ny
        frames := im.nz
        instanceNum := m.instance_num
        sliceLoc := im.uz * ((m.instance_num : ℚ) - 1)
        psX := im.ux
        psY := im.uy
        thickness := im.uz
        pixelData := fun idx =>
          quantU8 (im.data (idx % im.nx) ((idx / im.nx) % im.ny)
            (idx / (im.nx * im.ny)) 0) }, c1)

/-- Embedding of write_dcm: the exception wrapper adds no behaviour to the
pure model. -/
def write_dcm (gen : Nat → String) (ctr : Nat) (im : Image)
    (meta : Option Dcm_meta) : Option WrittenDcm × Nat :=
  write_dcm_cpp gen ctr im meta

/-- Fuel-driven helper producing the decimal digits of printf %d, most
significant first. The fuel never runs out when it starts at least as large
as the number. -/
def decDigitsAux : Nat → Nat → List Char
  | 0, n => [Char.ofNat (48 + n % 10)]
  | fuel + 1, n =>
    if n < 10 then [Char.ofNat (48 + n)]
    else decDigitsAux fuel (n / 10) ++ [Char.ofNat (48 + n % 10)]

/-- Decimal digits of printf %d, most significant first. -/
def decDigits (n : Nat) : List Char := decDigitsAux n n

/-- Digit character of printf: the character at code 48 + d. -/
def digitChar (d : Nat) : Char := Char.ofNat (48 + d)

/-- Embedding of snprintf with format %0Wd: the decimal digits of i, left
padded with zero characters when they are fewer than w. -/
def fmtD (w i : Nat) : List Char :=
  List.replicate (w - (decDigits i).length) (digitChar 0) ++ decDigits i

/-- Slice file name written by write_dcm_dir_cpp: the zero padded index
followed by the DICOM extension. -/
def sliceName (w i : Nat) : String := String.mk (fmtD w i ++ '.' :: ext_dcm.data)

/-- Fuel-driven ceiling of log10, the value of
static_cast<int>(ceil(log10(n))) computed by write_dcm_dir_cpp for n ≥ 1.
For n = 0 the source computes log10(0.0), which is undefined behaviour when
cast to int; no proved claim reaches that case. -/
def clog10Aux : Nat → Nat → Nat
  | 0, _ => 0
  | fuel + 1, n => if n ≤ 1 then 0 else clog10Aux fuel ((n + 9) / 10) + 1

/-- Ceiling of log10 as computed by write_dcm_dir_cpp for positive slice
counts. -/
def clog10 (n : Nat) : Nat := clog10Aux n n

/-- Slice extraction of write_dcm_dir_cpp: the slice buffer carries the
volume in-plane dimensions with a single z plane, the spacing left by
init_im (the source never copies the volume spacing into the slice buffer),
and plane i of the volume as data; cells the copy loop does not reach keep
the init_im contents. -/
def extractSlice (im : Image) (i : Nat) : Image :=
  { nx := im.nx
    ny := im.ny
    nz := 1
    nc := im.nc
    ux := initIm.ux
    uy := initIm.uy
    uz := initIm.uz
    data := fun x y z c =>
      if x < im.nx ∧ y < im.ny ∧ z < 1 ∧ c < im.nc then im.data x y i c
      else initIm.data x y z c }

/-- Per-slice loop of write_dcm_dir_cpp: slice i takes a fresh instance
identifier from the generator, instance number i + 1, and is serialized
under its zero padded name; the first failing slice write aborts the whole
decomposition, keeping the files already produced out of the result. -/
def writeLoop (gen : Nat → String) (im : Image) (m : Dcm_meta) (w : Nat) :
    Nat → Nat → Nat → Option (List (String × WrittenDcm)) × Nat
  | _, ctr, 0 => (some [], ctr)
  | i, ctr, rem + 1 =>
    let m2 : Dcm_meta := { m with instance_uid := gen ctr, instance_num := i + 1 }
    match write_dcm gen (ctr + 1) (extractSlice im i) (some m2) with
    | (none, c2) => (none, c2)
    | (some wd, c2) =>
      match writeLoop gen im m w (i + 1) c2 rem with
      | (none, c3) => (none, c3)
      | (some files, c3) => (some ((sliceName w i, wd) :: files), c3)

/-- Embedding of write_dcm_dir_cpp: resolve the metadata once, compute the
zero padding width from the slice count, and write every z plane as a
single-frame file. The slice buffer resize is total in the model. -/
def write_dcm_dir_cpp (gen : Nat → String) (ctr : Nat) (im : Image)
    (meta : Option Dcm_meta) : Option (List (String × WrittenDcm)) × Nat :=
  match set_meta_defaults gen ctr meta with
  | (m, c1) => writeLoop gen im m (clog10 im.nz) 0 c1 im.nz

/-- Embedding of write_dcm_dir: the exception wrapper adds no behaviour to
the pure model. -/
def write_dcm_dir (gen : Nat → String) (ctr : Nat) (im : Image)
    (meta : Option Dcm_meta) : Option (List (String × WrittenDcm)) × Nat :=
  write_dcm_dir_cpp gen ctr im meta

/-- Modelled from the DICOM semantics of the external toolkit: re-reading a
persisted dataset, DicomImage reports getWidth from the Columns tag,
getHeight from the Rows tag and the frame count from NumberOfFrames, and
renders the stored samples through a window transform dec
(setMinMaxWindow followed by getOutputData). Every tag parse is taken as
succeeding, the reading most favourable to the code. -/
def reread (dec : ℤ → ℚ) (w : WrittenDcm) : DcmFile :=
  { loadOk := true
    seriesUID := some w.seriesUID
    instanceRaw := some (Nat.repr w.instanceNum)
    imageOk := true
    isMonochrome := true
    width := w.cols
    height := w.rows
    frameCount := w.frames
    pixelSpacing := some w.psX
    heightWidthRatio := w.psY / w.psX
    sliceThickness := some w.thickness
    frameData := fun i =>
      if i < w.frames then
        some (fun idx => dec (w.pixelData (idx + i * (w.rows * w.cols))))
      else none }

/-- A valid slice file of series S with instance number 1 and a constant
decodable payload. -/
def fileS1 : DcmFile :=
  { loadOk := true
    seriesUID := some "S"
    instanceRaw := some "1"
    imageOk := true
    isMonochrome := true
    width := 1
    height := 1
    frameCount := 1
    pixelSpacing := some 1
    heightWidthRatio := 1
    sliceThickness := some 1
    frameData := fun _ => some (fun _ => 3) }

/-- A valid slice file of series S with instance number 2. -/
def fileS2 : DcmFile :=
  { fileS1 with instanceRaw := some "2", frameData := fun _ => some (fun _ => 4) }

/-- The same slice as fileS2, but of series T. -/
def fileT2 : DcmFile := { fileS2 with seriesUID := some "T" }

/-- Directory holding two valid slices of one shared series. -/
def fsSame : String → Option DcmFile := fun p =>
  if p = "d/a.dcm" then some fileS1 else if p = "d/b.dcm" then some fileS2 else none

/-- Directory holding two valid slices of two different series. -/
def fsDiff : String → Option DcmFile := fun p =>
  if p = "d/a.dcm" then some fileS1 else if p = "d/b.dcm" then some fileT2 else none

/-- The slice fileT2 with a different in-plane width. -/
def fileT2w : DcmFile := { fileT2 with width := 2 }

/-- Directory pairing two valid slices of different series whose in-plane
dimensions disagree: the inverted membership check passes and the dimension
check fails. -/
def fsDims : String → Option DcmFile := fun p =>
  if p = "d/a.dcm" then some fileS1 else if p = "d/b.dcm" then some fileT2w else none

/-- Injective identifier generator used for concrete runs: call n yields a
string of n letters. -/
def genA : Nat → String := fun n => String.mk (List.replicate n 'a')

/-- Identity window transform for concrete re-reads: the rendered sample is
the stored sample. -/
def decId : ℤ → ℚ := fun z => (z : ℚ)

/-- A 1 x 1 x 2 monochrome volume of constant value one half with unit
spacing. -/
def imC2 : Image :=
  { nx := 1, ny := 1, nz := 2, nc := 1, ux := 1, uy := 1, uz := 1,
    data := fun _ _ _ _ => 1/2 }

/-- The files produced by decomposing imC2 with default metadata. -/
def c2files : List (String × WrittenDcm) :=
  ((write_dcm_dir genA 0 imC2 none).1).getD []

/-- The directory produced by the decomposition of imC2, re-read through the
toolkit model. -/
def fsC2 : String → Option DcmFile := fun p =>
  (c2files.find? (fun nw => ("d2" ++ sep ++ nw.1) == p)).map (fun nw => reread decId nw.2)

/-- Traversal listing of the decomposition directory of imC2. -/
def listingC2 : List String := c2files.map (fun nw => nw.1)

/-- A 1 x 1 x 1 monochrome volume holding the single voxel value one half. -/
def imC4 : Image :=
  { nx := 1, ny := 1, nz := 1, nc := 1, ux := 1, uy := 1, uz := 1,
    data := fun _ _ _ _ => 1/2 }

/-- First stored sample of a written dataset, when the write succeeded. -/
def pixel0 (r : Option WrittenDcm) : Option ℤ := r.map (fun w => w.pixelData 0)

/-- A valid slice of series U, instance 1, whose payload decodes to the
constant 7. -/
def fileU1 : DcmFile :=
  { fileS1 with seriesUID := some "U", frameData := fun _ => some (fun _ => 7) }

/-- A valid slice of series V, instance 2, whose payload fails to decode. -/
def fileV2 : DcmFile :=
  { fileS2 with seriesUID := some "V", frameData := fun _ => none }

/-- Directory pairing a decodable slice with one whose payload decode
fails; the two series differ, so the inverted membership check passes. -/
def fsC6 : String → Option DcmFile := fun p =>
  if p = "d6/a.dcm" then some fileU1 else if p = "d6/b.dcm" then some fileV2 else none

/-- A slice file identical to fileS1 except that its instance number string
is not a decimal integer. -/
def fileC8 : DcmFile := { fileS1 with instanceRaw := some "abc" }

/-- Spec-side notion of a parseable integer string: an optional sign
followed by one or more decimal digits. -/
def isIntString (s : String) : Bool :=
  let core : List Char :=
    match s.data with
    | '-' :: cs => cs
    | '+' :: cs => cs
    | cs => cs
  !core.isEmpty && core.all (fun c => c.isDigit)

/-- A 1 x 1 x 150 monochrome volume with unit spacing, the slice count of
the filename padding example of the spec. -/
def imC9 : Image :=
  { nx := 1, ny := 1, nz := 150, nc := 1, ux := 1, uy := 1, uz := 1,
    data := fun _ _ _ _ => 0 }

/-- A 2 x 3 x 1 monochrome volume with unit spacing, whose in-plane
dimensions differ. -/
def imC10 : Image :=
  { nx := 2, ny := 3, nz := 1, nc := 1, ux := 1, uy := 1, uz := 1,
    data := fun _ _ _ _ => 0 }

unseal Rat.mul Rat.add Rat.sub Rat.inv in
/-- C1: the code inverts the series membership check. A candidate set of two
valid records sharing one series identifier is rejected (with the
destination untouched), while a set whose second record carries a different
series identifier passes the membership check and assembles successfully;
eqSeries itself answers false on equal identifiers and true on different
ones, the converse of its own documentation. The claim as stated therefore
fails on the code. -/
theorem C1_seriesCheckInverted :
    (read_dcm_dir fsSame "d" ["a.dcm", "b.dcm"] initIm).1 = SIFT3D_FAILURE ∧
    (read_dcm_dir fsSame "d" ["a.dcm", "b.dcm"] initIm).2 = initIm ∧
    (read_dcm_dir fsDiff "d" ["a.dcm", "b.dcm"] initIm).1 = SIFT3D_SUCCESS ∧
    Dicom.eqSeries (Dicom.ofFile "d/a.dcm" fileS1) (Dicom.ofFile "d/b.dcm" fileS2) = false ∧
    Dicom.eqSeries (Dicom.ofFile "d/a.dcm" fileS1) (Dicom.ofFile "d/b.dcm" fileT2) = true :=
  ⟨by decide, rfl, by decide, by decide, by decide⟩

unseal Rat.mul Rat.add Rat.sub Rat.inv in
/-- C2: the decompose-then-reassemble round trip fails on the code. The
decomposition of a two-slice volume writes both files with one shared series
identifier, and the inverted series membership check of the assembly then
rejects the written directory, so reassembly returns failure and no volume
is produced, against the claimed round trip. -/
theorem C2_roundTripFails :
    c2files.length = 2 ∧
    c2files.map (fun nw => nw.2.seriesUID) = [genA 1, genA 1] ∧
    (collectDicoms fsC2 "d2" listingC2).isSome = true ∧
    (collectDicoms fsC2 "d2" listingC2).map checkSeries = some false ∧
    (read_dcm_dir fsC2 "d2" listingC2 initIm).1 = SIFT3D_FAILURE ∧
    (read_dcm_dir fsC2 "d2" listingC2 initIm).2 = initIm :=
  ⟨by decide, by decide, by decide, by decide, by decide, rfl⟩

unseal Rat.mul Rat.add Rat.sub Rat.inv in
/-- C3: on a set of slices sharing one series with distinct instance numbers
1 and 2, assembly produces no volume in any traversal order: the inverted
series membership check rejects the set in both enumeration orders, so the
claimed order-independent output volume is never produced. -/
theorem C3_noVolumeInAnyOrder :
    (read_dcm_dir fsSame "d" ["a.dcm", "b.dcm"] initIm).1 = SIFT3D_FAILURE ∧
    (read_dcm_dir fsSame "d" ["b.dcm", "a.dcm"] initIm).1 = SIFT3D_FAILURE ∧
    (read_dcm_dir fsSame "d" ["a.dcm", "b.dcm"] initIm).2 = initIm ∧
    (read_dcm_dir fsSame "d" ["b.dcm", "a.dcm"] initIm).2 = initIm :=
  ⟨by decide, by decide, rfl, rfl⟩

unseal Rat.mul Rat.add Rat.sub Rat.inv in
/-- C4 counterexample: at a voxel of value one half the stored sample is the
truncation 127, while round(voxel_value * 255) is 128, so the claim that
every stored sample equals round(voxel_value * 255) fails on the code. The
float product 0.5f * 255.0f = 127.5 is exact, so the rational model is
faithful here. -/
theorem C4_roundCounterexample :
    pixel0 (write_dcm_cpp genA 0 imC4 none).1 = some 127 ∧
    quantU8_spec (imC4.data 0 0 0 0) = 128 ∧ (127 : ℤ) ≠ 128 :=
  ⟨by decide, by decide, by decide⟩

unseal Rat.mul Rat.add Rat.sub Rat.inv in
/-- C6 counterexample: when the second payload fails to decode after the
first slice was already copied, the read returns failure but the destination
has been resized (nz = 2 against the initial 0) and carries the first slice
sample 7 at the origin (against the initial 0): the destination is left
partially populated, so the claim that no failing assembly leaves a
partially populated volume fails on the code. -/
theorem C6_populatedOnFailureCounterexample :
    (read_dcm_dir fsC6 "d6" ["a.dcm", "b.dcm"] initIm).1 = SIFT3D_FAILURE ∧
    (read_dcm_dir fsC6 "d6" ["a.dcm", "b.dcm"] initIm).2.nz = 2 ∧ initIm.nz = 0 ∧
    (read_dcm_dir fsC6 "d6" ["a.dcm", "b.dcm"] initIm).2.data 0 0 0 0 = 7 ∧
    initIm.data 0 0 0 0 = 0 :=
  ⟨by decide, by decide, by decide, by decide, by decide⟩

/-- C7: metadata resolution: a null caller value yields the fixed literal
patient name, patient id and series description, three freshly generated
identifiers for study, series and instance, and instance number 1; a
non-null caller value is copied verbatim with no field-level merging. -/
theorem C7_metaResolution (gen : Nat → String) (ctr : Nat) :
    set_meta_defaults gen ctr none =
      ({ patient_name := default_patient_name
         patient_id := default_patient_id
         study_uid := gen ctr
         series_uid := gen (ctr + 1)
         series_descrip := default_series_descrip
         instance_uid := gen (ctr + 2)
         instance_num := 1 }, ctr + 3) ∧
    ∀ m : Dcm_meta, set_meta_defaults gen ctr (some m) = (m, ctr) :=
  ⟨rfl, fun _ => rfl⟩

unseal Rat.mul Rat.add Rat.sub Rat.inv in
/-- C8 counterexample: a record whose instance number string is present but
not a parseable integer is still tagged valid, with ordering key 0 produced
by atoll, so the claim that any unparseable required tag yields an invalid
record fails on the code. -/
theorem C8_unparseableInstanceCounterexample :
    isIntString "abc" = false ∧
    (Dicom.ofFile "p.dcm" fileC8).valid = true ∧
    (Dicom.ofFile "p.dcm" fileC8).inst = 0 :=
  ⟨by decide, by decide, by decide⟩

/-- Decoding the flat pixel index x + y * nx + z * nx * ny by division and
remainder recovers the coordinates, for in-range x and y. -/
theorem flat_decode (nx ny z x y : Nat) (hx : x < nx) (hy : y < ny) :
    (x + y * nx + z * (nx * ny)) % nx = x ∧
    ((x + y * nx + z * (nx * ny)) / nx) % ny = y ∧
    (x + y * nx + z * (nx * ny)) / (nx * ny) = z := by
  have hnx : 0 < nx := lt_of_le_of_lt (Nat.zero_le x) hx
  have hny : 0 < ny := lt_of_le_of_lt (Nat.zero_le y) hy
  have h1 : x + y * nx + z * (nx * ny) = x + nx * (y + ny * z) := by ring
  have h2 : x + y * nx + z * (nx * ny) = (x + y * nx) + (nx * ny) * z := by ring
  refine ⟨?_, ?_, ?_⟩
  · rw [h1, Nat.add_mul_mod_self_left, Nat.mod_eq_of_lt hx]
  · rw [h1, Nat.add_mul_div_left _ _ hnx, Nat.div_eq_of_lt hx, Nat.zero_add,
      Nat.add_mul_mod_self_left, Nat.mod_eq_of_lt hy]
  · have hb : x + y * nx < nx * ny := by
      calc x + y * nx < nx + y * nx := by omega
        _ = (y + 1) * nx := by ring
        _ ≤ ny * nx := Nat.mul_le_mul_right _ hy
        _ = nx * ny := Nat.mul_comm _ _
    rw [h2, Nat.add_mul_div_left _ _ (Nat.mul_pos hnx hny), Nat.div_eq_of_lt hb,
      Nat.zero_add]

/-- On a monochrome image, write_dcm_cpp succeeds and its dataset carries
the resolved metadata identity, the dimensions with Rows from nx and Columns
from ny, the spacing, and the quantized samples. -/
theorem write_dcm_cpp_some (gen : Nat → String) (ctr : Nat) (im : Image)
    (meta : Option Dcm_meta) (hc : im.nc = 1) :
    ∃ wd, write_dcm_cpp gen ctr im meta = (some wd, (set_meta_defaults gen ctr meta).2) ∧
      wd.rows = im.nx ∧ wd.cols = im.ny ∧ wd.frames = im.nz ∧
      wd.seriesUID = (set_meta_defaults gen ctr meta).1.series_uid ∧
      wd.studyUID = (set_meta_defaults gen ctr meta).1.study_uid ∧
      wd.instanceUID = (set_meta_defaults gen ctr meta).1.instance_uid ∧
      wd.instanceNum = (set_meta_defaults gen ctr meta).1.instance_num ∧
      wd.psX = im.ux ∧ wd.psY = im.uy ∧ wd.thickness = im.uz ∧
      ∀ idx, wd.pixelData idx =
        quantU8 (im.data (idx % im.nx) ((idx / im.nx) % im.ny)
          (idx / (im.nx * im.ny)) 0) := by
  unfold write_dcm_cpp
  have hnc : ¬ (im.nc ≠ 1) := by simp [hc]
  rw [if_neg hnc]
  cases hm : set_meta_defaults gen ctr meta with
  | mk m c1 =>
    exact ⟨_, rfl, rfl, rfl, rfl, rfl, rfl, rfl, rfl, rfl, rfl, rfl, fun _ => rfl⟩

/-- C4 amended: every sample stored by write_dcm equals the truncation
toward zero of voxel_value * 255, the behaviour of the static_cast of the
source, which differs from round(voxel_value * 255) at half steps. -/
theorem C4_samplesTruncated (gen : Nat → String) (ctr : Nat) (im : Image)
    (meta : Option Dcm_meta) (x y z : Nat) (hc : im.nc = 1)
    (hx : x < im.nx) (hy : y < im.ny) :
    ∃ wd c, write_dcm_cpp gen ctr im meta = (some wd, c) ∧
      wd.pixelData (x + y * im.nx + z * (im.nx * im.ny)) =
        ratTrunc (im.data x y z 0 * 255) := by
  obtain ⟨wd, heq, -, -, -, -, -, -, -, -, -, -, hpx⟩ :=
    write_dcm_cpp_some gen ctr im meta hc
  obtain ⟨h1, h2, h3⟩ := flat_decode im.nx im.ny z x y hx hy
  exact ⟨wd, _, heq, by rw [hpx, h1, h2, h3]; rfl⟩

/-- C4 witness: the amended sample formula evaluated on the one-voxel
volume of value one half. -/
theorem C4_samplesTruncated_witness :
    imC4.nc = 1 ∧ 0 < imC4.nx ∧ 0 < imC4.ny ∧
    ∃ wd c, write_dcm_cpp genA 0 imC4 none = (some wd, c) ∧
      wd.pixelData (0 + 0 * imC4.nx + 0 * (imC4.nx * imC4.ny)) =
        ratTrunc (imC4.data 0 0 0 0 * 255) :=
  ⟨rfl, by decide, by decide,
    C4_samplesTruncated genA 0 imC4 none 0 0 0 rfl (by decide) (by decide)⟩

/-- C6 amended: every failure the directory read detects before the
destination resize — a record that fails to load or validate, an empty
candidate set, the series mismatch branch, and the dimension mismatch
branch — returns failure with the destination volume neither resized nor
written. A payload decode failure after copying began instead leaves a
resized, partially copied destination behind while still returning failure,
as the recorded counterexample shows, so a partial volume is never
presented as success but the buffer is not untouched. -/
theorem C6_preResizeFailureLeavesUntouched (fs : String → Option DcmFile)
    (dir : String) (listing : List String) (im : Image)
    (hpre : collectDicoms fs dir listing = none ∨
      collectDicoms fs dir listing = some [] ∨
      ∃ first rest, collectDicoms fs dir listing = some (first :: rest) ∧
        (checkSeries (first :: rest) = false ∨
          checkDims first (first :: rest) = false)) :
    read_dcm_dir fs dir listing im = (SIFT3D_FAILURE, im) := by
  unfold read_dcm_dir read_dcm_dir_cpp
  rcases hpre with h | h | ⟨first, rest, h, hfail⟩
  · rw [h]
  · rw [h]
  · rw [h]
    rcases hfail with hser | hdim
    · simp [hser]
    · cases hcs : checkSeries (first :: rest) with
      | false => simp [hcs]
      | true => simp [hcs, hdim]

unseal Rat.mul Rat.add Rat.sub Rat.inv in
/-- C6 witness: the pre-resize guarantee applied to each failing branch in
turn: a file that fails to load, an empty listing, the same-series pair
rejected by the inverted membership check, and a different-series pair with
mismatched in-plane dimensions. -/
theorem C6_preResizeFailureLeavesUntouched_witness :
    (collectDicoms (fun _ => none) "d" ["bad.dcm"] = none ∧
      read_dcm_dir (fun _ => none) "d" ["bad.dcm"] initIm = (SIFT3D_FAILURE, initIm)) ∧
    (collectDicoms fsSame "d" [] = some [] ∧
      read_dcm_dir fsSame "d" [] initIm = (SIFT3D_FAILURE, initIm)) ∧
    (checkSeries
        [Dicom.ofFile ("d" ++ sep ++ "a.dcm") (getFile fsSame ("d" ++ sep ++ "a.dcm")),
          Dicom.ofFile ("d" ++ sep ++ "b.dcm") (getFile fsSame ("d" ++ sep ++ "b.dcm"))] =
        false ∧
      read_dcm_dir fsSame "d" ["a.dcm", "b.dcm"] initIm = (SIFT3D_FAILURE, initIm)) ∧
    (checkDims
        (Dicom.ofFile ("d" ++ sep ++ "a.dcm") (getFile fsDims ("d" ++ sep ++ "a.dcm")))
        [Dicom.ofFile ("d" ++ sep ++ "a.dcm") (getFile fsDims ("d" ++ sep ++ "a.dcm")),
          Dicom.ofFile ("d" ++ sep ++ "b.dcm") (getFile fsDims ("d" ++ sep ++ "b.dcm"))] =
        false ∧
      read_dcm_dir fsDims "d" ["a.dcm", "b.dcm"] initIm = (SIFT3D_FAILURE, initIm)) :=
  ⟨⟨by decide,
      C6_preResizeFailureLeavesUntouched (fun _ => none) "d" ["bad.dcm"] initIm
        (Or.inl (by decide))⟩,
    ⟨by decide,
      C6_preResizeFailureLeavesUntouched fsSame "d" [] initIm
        (Or.inr (Or.inl (by decide)))⟩,
    ⟨by decide,
      C6_preResizeFailureLeavesUntouched fsSame "d" ["a.dcm", "b.dcm"] initIm
        (Or.inr (Or.inr
          ⟨Dicom.ofFile ("d" ++ sep ++ "a.dcm") (getFile fsSame ("d" ++ sep ++ "a.dcm")),
            [Dicom.ofFile ("d" ++ sep ++ "b.dcm") (getFile fsSame ("d" ++ sep ++ "b.dcm"))],
            by decide, Or.inl (by decide)⟩))⟩,
    ⟨by decide,
      C6_preResizeFailureLeavesUntouched fsDims "d" ["a.dcm", "b.dcm"] initIm
        (Or.inr (Or.inr
          ⟨Dicom.ofFile ("d" ++ sep ++ "a.dcm") (getFile fsDims ("d" ++ sep ++ "a.dcm")),
            [Dicom.ofFile ("d" ++ sep ++ "b.dcm") (getFile fsDims ("d" ++ sep ++ "b.dcm"))],
            by decide, Or.inr (by decide)⟩))⟩⟩

/-- Characterization of the per-slice write loop on a monochrome volume:
it always succeeds, produces one file per remaining slice, and the k-th
file carries the zero padded name of slice i + k, a single frame, instance
number i + k + 1, the shared series and study identity, the fresh
identifier of generator call c + k, and the quantized plane i + k. -/
theorem writeLoop_spec (gen : Nat → String) (im : Image) (m : Dcm_meta) (w : Nat)
    (hc : im.nc = 1) :
    ∀ rem i c, ∃ files,
      writeLoop gen im m w i c rem = (some files, c + rem) ∧
      files.length = rem ∧
      ∀ k (hk : k < files.length),
        (files.get ⟨k, hk⟩).1 = sliceName w (i + k) ∧
        (files.get ⟨k, hk⟩).2.frames = 1 ∧
        (files.get ⟨k, hk⟩).2.instanceNum = i + k + 1 ∧
        (files.get ⟨k, hk⟩).2.seriesUID = m.series_uid ∧
        (files.get ⟨k, hk⟩).2.studyUID = m.study_uid ∧
        (files.get ⟨k, hk⟩).2.instanceUID = gen (c + k) ∧
        ∀ x y, x < im.nx → y < im.ny →
          (files.get ⟨k, hk⟩).2.pixelData (x + y * im.nx) =
            quantU8 (im.data x y (i + k) 0) := by
  intro rem
  induction rem with
  | zero =>
    intro i c
    exact ⟨[], rfl, rfl, fun k hk => absurd hk (by simp)⟩
  | succ rem ih =>
    intro i c
    obtain ⟨files, hrun, hlen, hget⟩ := ih (i + 1) (c + 1)
    have hsc : (extractSlice im i).nc = 1 := hc
    obtain ⟨wd, hw, hrows, hcols, hframes, hsuid, hstudy, hiuid, hinum, hpsx, hpsy,
      hth, hpx⟩ :=
      write_dcm_cpp_some gen (c + 1) (extractSlice im i)
        (some { m with instance_uid := gen c, instance_num := i + 1 }) hsc
    refine ⟨(sliceName w i, wd) :: files, ?_, by simp [hlen], ?_⟩
    · have hstep : c + 1 + rem = c + (rem + 1) := by omega
      simp only [writeLoop, write_dcm]
      rw [hw]
      simp only [set_meta_defaults]
      rw [hrun, hstep]
    · intro k hk
      cases k with
      | zero =>
        refine ⟨by simp, hframes, by simpa using hinum, hsuid, hstudy,
          by simpa using hiuid, ?_⟩
        intro x y hx hy
        have hd := flat_decode im.nx im.ny 0 x y hx hy
        have e : x + y * im.nx + 0 * (im.nx * im.ny) = x + y * im.nx := by ring
        rw [e] at hd
        obtain ⟨e1, e2, e3⟩ := hd
        have hp := hpx (x + y * im.nx)
        show wd.pixelData (x + y * im.nx) = quantU8 (im.data x y (i + 0) 0)
        rw [hp]
        simp only [extractSlice] at *
        rw [e1, e2, e3]
        have hcpos : 0 < im.nc := by omega
        simp [hx, hy, hcpos]
      | succ k =>
        have hk2 : k < files.length := by
          simpa [hlen] using Nat.lt_of_succ_lt_succ (by simpa [hlen] using hk)
        obtain ⟨g1, g2, g3, g4, g5, g6, g7⟩ := hget k hk2
        have ei : i + 1 + k = i + (k + 1) := by omega
        have ec : c + 1 + k = c + (k + 1) := by omega
        refine ⟨?_, g2, ?_, g4, g5, ?_, ?_⟩
        · rw [show ((sliceName w i, wd) :: files).get ⟨k + 1, hk⟩ =
            files.get ⟨k, hk2⟩ from rfl]
          rw [g1, ei]
        · rw [show ((sliceName w i, wd) :: files).get ⟨k + 1, hk⟩ =
            files.get ⟨k, hk2⟩ from rfl]
          rw [g3, ei]
        · rw [show ((sliceName w i, wd) :: files).get ⟨k + 1, hk⟩ =
            files.get ⟨k, hk2⟩ from rfl]
          rw [g6, ec]
        · intro x y hx hy
          rw [show ((sliceName w i, wd) :: files).get ⟨k + 1, hk⟩ =
            files.get ⟨k, hk2⟩ from rfl]
          rw [g7 x y hx hy, ei]

/-- C5: decomposing a monochrome volume with nz slices succeeds and produces
exactly nz single-frame files whose instance numbers are 1..nz in z order
(file k carries the quantized plane k and instance number k + 1), all
sharing the resolved series and study identity, and whose per-file instance
identifiers are the outputs of distinct generator calls, hence pairwise
distinct whenever those generator outputs are. -/
theorem C5_decomposition (gen : Nat → String) (ctr : Nat) (im : Image)
    (meta : Option Dcm_meta) (hc : im.nc = 1) (_hnz : 1 ≤ im.nz) :
    ∃ files c,
      write_dcm_dir gen ctr im meta = (some files, c) ∧
      files.length = im.nz ∧
      (∀ k (hk : k < files.length),
        (files.get ⟨k, hk⟩).2.frames = 1 ∧
        (files.get ⟨k, hk⟩).2.instanceNum = k + 1 ∧
        (files.get ⟨k, hk⟩).2.seriesUID = (set_meta_defaults gen ctr meta).1.series_uid ∧
        (files.get ⟨k, hk⟩).2.studyUID = (set_meta_defaults gen ctr meta).1.study_uid ∧
        (files.get ⟨k, hk⟩).2.instanceUID = gen ((set_meta_defaults gen ctr meta).2 + k) ∧
        (∀ x y, x < im.nx → y < im.ny →
          (files.get ⟨k, hk⟩).2.pixelData (x + y * im.nx) = quantU8 (im.data x y k 0))) ∧
      (∀ k l (hk : k < files.length) (hl : l < files.length),
        gen ((set_meta_defaults gen ctr meta).2 + k) ≠
          gen ((set_meta_defaults gen ctr meta).2 + l) →
        (files.get ⟨k, hk⟩).2.instanceUID ≠ (files.get ⟨l, hl⟩).2.instanceUID) := by
  cases hm : set_meta_defaults gen ctr meta with
  | mk m c1 =>
    obtain ⟨files, hrun, hlen, hget⟩ := writeLoop_spec gen im m (clog10 im.nz) hc im.nz 0 c1
    refine ⟨files, c1 + im.nz, ?_, hlen, ?_, ?_⟩
    · show write_dcm_dir_cpp gen ctr im meta = _
      unfold write_dcm_dir_cpp
      rw [hm]
      exact hrun
    · intro k hk
      obtain ⟨g1, g2, g3, g4, g5, g6, g7⟩ := hget k hk
      refine ⟨g2, by simpa using g3, g4, g5, g6, ?_⟩
      intro x y hx hy
      simpa using g7 x y hx hy
    · intro k l hk hl hgen
      obtain ⟨-, -, -, -, -, g6k, -⟩ := hget k hk
      obtain ⟨-, -, -, -, -, g6l, -⟩ := hget l hl
      rw [g6k, g6l]
      exact hgen

unseal Rat.mul Rat.add Rat.sub Rat.inv in
/-- C5 witness: the decomposition guarantee evaluated on the two-slice
volume imC2 with default metadata. -/
theorem C5_decomposition_witness :
    imC2.nc = 1 ∧ 1 ≤ imC2.nz ∧
    (∃ files c,
      write_dcm_dir genA 0 imC2 none = (some files, c) ∧
      files.length = imC2.nz ∧
      (∀ k (hk : k < files.length),
        (files.get ⟨k, hk⟩).2.frames = 1 ∧
        (files.get ⟨k, hk⟩).2.instanceNum = k + 1 ∧
        (files.get ⟨k, hk⟩).2.seriesUID = (set_meta_defaults genA 0 none).1.series_uid ∧
        (files.get ⟨k, hk⟩).2.studyUID = (set_meta_defaults genA 0 none).1.study_uid ∧
        (files.get ⟨k, hk⟩).2.instanceUID = genA ((set_meta_defaults genA 0 none).2 + k) ∧
        (∀ x y, x < imC2.nx → y < imC2.ny →
          (files.get ⟨k, hk⟩).2.pixelData (x + y * imC2.nx) = quantU8 (imC2.data x y k 0))) ∧
      (∀ k l (hk : k < files.length) (hl : l < files.length),
        genA ((set_meta_defaults genA 0 none).2 + k) ≠
          genA ((set_meta_defaults genA 0 none).2 + l) →
        (files.get ⟨k, hk⟩).2.instanceUID ≠ (files.get ⟨l, hl⟩).2.instanceUID)) :=
  ⟨rfl, by decide, C5_decomposition genA 0 imC2 none rfl (by decide)⟩

/-- The digit helper ignores its fuel as long as the fuel covers the
number. -/
theorem decDigitsAux_irrel : ∀ f1 f2 n, n ≤ f1 → n ≤ f2 →
    decDigitsAux f1 n = decDigitsAux f2 n := by
  intro f1
  induction f1 with
  | zero =>
    intro f2 n h1 h2
    have hn : n = 0 := by omega
    subst hn
    cases f2 with
    | zero => rfl
    | succ f2 => simp [decDigitsAux]
  | succ f1 ih =>
    intro f2 n h1 h2
    cases f2 with
    | zero =>
      have hn : n = 0 := by omega
      subst hn
      simp [decDigitsAux]
    | succ f2 =>
      simp only [decDigitsAux]
      by_cases h : n < 10
      · simp [h]
      · simp only [if_neg h]
        rw [ih f2 (n / 10) (by omega) (by omega)]

/-- Unfolding rule of the decimal digit list. -/
theorem decDigits_eq (n : Nat) :
    decDigits n = if n < 10 then [digitChar n]
      else decDigits (n / 10) ++ [digitChar (n % 10)] := by
  unfold decDigits
  cases n with
  | zero => simp [decDigitsAux, digitChar]
  | succ m =>
    show decDigitsAux (m + 1) (m + 1) = _
    simp only [decDigitsAux]
    by_cases h : m + 1 < 10
    · simp [h, digitChar]
    · simp only [if_neg h, digitChar]
      rw [decDigitsAux_irrel m ((m + 1) / 10) ((m + 1) / 10) (by omega) le_rfl]

/-- Digit characters are ordered as their digits. -/
theorem digitChar_lt : ∀ a, a < 10 → ∀ b, b < 10 → a < b → digitChar a < digitChar b := by
  decide

/-- A number below 10 ^ (w + 1) has at most w + 1 decimal digits. -/
theorem decDigits_length_le : ∀ w n, n < 10 ^ (w + 1) → (decDigits n).length ≤ w + 1 := by
  intro w
  induction w with
  | zero =>
    intro n hn
    rw [decDigits_eq]
    have h : n < 10 := by simpa using hn
    simp [h]
  | succ w ih =>
    intro n hn
    rw [decDigits_eq]
    by_cases h : n < 10
    · simp [h]
    · have hdiv : n / 10 < 10 ^ (w + 1) := by
        rw [Nat.div_lt_iff_lt_mul (by norm_num : (0 : Nat) < 10)]
        calc n < 10 ^ (w + 1 + 1) := hn
          _ = 10 ^ (w + 1) * 10 := by ring
      have := ih (n / 10) hdiv
      simp only [if_neg h, List.length_append, List.length_singleton]
      omega

/-- The padded field has exactly width w when the digits fit. -/
theorem fmtD_length {w n : Nat} (h : (decDigits n).length ≤ w) :
    (fmtD w n).length = w := by
  simp only [fmtD, List.length_append, List.length_replicate]
  omega

/-- Peeling the least significant digit off a padded field of width at
least two. -/
theorem fmtD_succ (w : Nat) (hw : 1 ≤ w) (n : Nat) :
    fmtD (w + 1) n = fmtD w (n / 10) ++ [digitChar (n % 10)] := by
  unfold fmtD
  by_cases h : n < 10
  · have hd : n / 10 = 0 := Nat.div_eq_of_lt h
    have hm : n % 10 = n := Nat.mod_eq_of_lt h
    rw [hd, hm, decDigits_eq n, decDigits_eq 0]
    simp only [if_pos h, if_pos (by norm_num : (0 : Nat) < 10)]
    obtain ⟨v, rfl⟩ : ∃ v, w = v + 1 := ⟨w - 1, by omega⟩
    have e1 : v + 1 + 1 - ([digitChar n]).length = v + 1 := by simp
    have e2 : v + 1 - ([digitChar 0]).length = v := by simp
    rw [e1, e2, List.replicate_succ' v (digitChar 0)]
  · rw [decDigits_eq n, if_neg h]
    simp only [List.length_append, List.length_singleton]
    have e : w + 1 - ((decDigits (n / 10)).length + 1) = w - (decDigits (n / 10)).length := by
      omega
    rw [e, ← List.append_assoc]

/-- Lexicographic order is preserved by appending anything to two strictly
ordered lists of equal length. -/
theorem lex_append_of_lex : ∀ (l m s t : List Char), l.length = m.length →
    List.Lex (· < ·) l m → List.Lex (· < ·) (l ++ s) (m ++ t) := by
  intro l
  induction l with
  | nil =>
    intro m s t hlen h
    cases h
    simp_all
  | cons a l ih =>
    intro m s t hlen h
    cases m with
    | nil => cases h
    | cons b m2 =>
      cases h with
      | rel hab => exact List.Lex.rel hab
      | cons h2 => exact List.Lex.cons (ih m2 s t (by simpa using hlen) h2)

/-- Lexicographic order is preserved under a common prefix. -/
theorem lex_append_right (l : List Char) {s t : List Char}
    (h : List.Lex (· < ·) s t) : List.Lex (· < ·) (l ++ s) (l ++ t) := by
  induction l with
  | nil => simpa using h
  | cons a l ih => exact List.Lex.cons ih

/-- Zero padded decimal fields of one width compare lexicographically as
their numbers, below the width capacity. -/
theorem fmtD_lex : ∀ w i j, i < j → j < 10 ^ w →
    List.Lex (· < ·) (fmtD w i) (fmtD w j) := by
  intro w
  induction w with
  | zero =>
    intro i j hij hj
    simp only [pow_zero] at hj
    exact absurd hij (by omega)
  | succ w ih =>
    intro i j hij hj
    by_cases hw : w = 0
    · subst hw
      have hj10 : j < 10 := by simpa using hj
      have hi10 : i < 10 := by omega
      have f1 : ∀ n, n < 10 → fmtD 1 n = [digitChar n] := by
        intro n hn
        unfold fmtD
        rw [decDigits_eq, if_pos hn]
        simp
      rw [f1 i hi10, f1 j hj10]
      exact List.Lex.rel (digitChar_lt i hi10 j hj10 hij)
    · have hw1 : 1 ≤ w := by omega
      rw [fmtD_succ w hw1 i, fmtD_succ w hw1 j]
      rcases Nat.lt_or_ge (i / 10) (j / 10) with hd | hd
      · have hj10 : j / 10 < 10 ^ w := by
          rw [Nat.div_lt_iff_lt_mul (by norm_num : (0 : Nat) < 10)]
          calc j < 10 ^ (w + 1) := hj
            _ = 10 ^ w * 10 := by ring
        have hi10 : i / 10 < 10 ^ w := lt_trans hd hj10
        have hlex := ih (i / 10) (j / 10) hd hj10
        obtain ⟨v, rfl⟩ : ∃ v, w = v + 1 := ⟨w - 1, by omega⟩
        apply lex_append_of_lex _ _ _ _ ?_ hlex
        rw [fmtD_length (decDigits_length_le v (i / 10) hi10),
          fmtD_length (decDigits_length_le v (j / 10) hj10)]
      · have hdd : i / 10 = j / 10 := by omega
        rw [hdd]
        apply lex_append_right
        have hm : i % 10 < j % 10 := by omega
        exact List.Lex.rel (digitChar_lt _ (by omega) _ (by omega) hm)

/-- Slice file names of one width compare lexicographically as their slice
indices, below the width capacity. -/
theorem sliceName_lex (w i j : Nat) (hij : i < j) (hj : j < 10 ^ w) :
    List.Lex (· < ·) (sliceName w i).data (sliceName w j).data := by
  cases w with
  | zero =>
    simp only [pow_zero] at hj
    exact absurd hij (by omega)
  | succ v =>
    show List.Lex (· < ·) (fmtD (v + 1) i ++ '.' :: ext_dcm.data)
      (fmtD (v + 1) j ++ '.' :: ext_dcm.data)
    have hi : i < 10 ^ (v + 1) := lt_trans hij hj
    apply lex_append_of_lex _ _ _ _ ?_ (fmtD_lex (v + 1) i j hij hj)
    rw [fmtD_length (decDigits_length_le v i hi),
      fmtD_length (decDigits_length_le v j hj)]

/-- The fuel-driven ceiling of log10 bounds its argument. -/
theorem le_pow_clog10Aux : ∀ fuel n, n ≤ fuel → n ≤ 10 ^ clog10Aux fuel n := by
  intro fuel
  induction fuel with
  | zero =>
    intro n h
    simp only [clog10Aux, pow_zero]
    omega
  | succ fuel ih =>
    intro n h
    by_cases h1 : n ≤ 1
    · simp only [clog10Aux, if_pos h1, pow_zero]
      omega
    · simp only [clog10Aux, if_neg h1]
      have hrec := ih ((n + 9) / 10) (by omega)
      calc n ≤ 10 * ((n + 9) / 10) := by omega
        _ ≤ 10 * 10 ^ clog10Aux fuel ((n + 9) / 10) := by
            exact Nat.mul_le_mul_left 10 hrec
        _ = 10 ^ (clog10Aux fuel ((n + 9) / 10) + 1) := by ring

/-- Every slice count is covered by its zero padding width. -/
theorem le_pow_clog10 (n : Nat) : n ≤ 10 ^ clog10 n :=
  le_pow_clog10Aux n n le_rfl

/-- C9: every output filename of a decomposition is the slice index zero
padded to ceil(log10(nz)) digits followed by the DICOM extension, the
lexicographic order of the filenames agrees with the numeric slice order,
and for nz = 150 the padding width is three digits. -/
theorem C9_filenames (gen : Nat → String) (ctr : Nat) (im : Image)
    (meta : Option Dcm_meta) (hc : im.nc = 1) (_hnz : 1 ≤ im.nz) :
    ∃ files c,
      write_dcm_dir gen ctr im meta = (some files, c) ∧
      files.length = im.nz ∧
      (∀ k (hk : k < files.length),
        (files.get ⟨k, hk⟩).1 = sliceName (clog10 im.nz) k) ∧
      (∀ k l (hk : k < files.length) (hl : l < files.length), k < l →
        List.Lex (· < ·) ((files.get ⟨k, hk⟩).1.data) ((files.get ⟨l, hl⟩).1.data)) ∧
      (im.nz = 150 → clog10 im.nz = 3) := by
  cases hm : set_meta_defaults gen ctr meta with
  | mk m c1 =>
    obtain ⟨files, hrun, hlen, hget⟩ :=
      writeLoop_spec gen im m (clog10 im.nz) hc im.nz 0 c1
    refine ⟨files, c1 + im.nz, ?_, hlen, ?_, ?_, ?_⟩
    · show write_dcm_dir_cpp gen ctr im meta = _
      unfold write_dcm_dir_cpp
      rw [hm]
      exact hrun
    · intro k hk
      obtain ⟨g1, -⟩ := hget k hk
      simpa using g1
    · intro k l hk hl hkl
      obtain ⟨g1k, -⟩ := hget k hk
      obtain ⟨g1l, -⟩ := hget l hl
      have hcap : l < 10 ^ clog10 im.nz :=
        lt_of_lt_of_le (hlen ▸ hl) (le_pow_clog10 im.nz)
      have hlex := sliceName_lex (clog10 im.nz) k l hkl hcap
      rw [g1k, g1l]
      simpa using hlex
    · intro h150
      rw [h150]
      decide

unseal Rat.mul Rat.add Rat.sub Rat.inv in
/-- C9 witness: the filename guarantee evaluated on the 150 slice volume of
the padding example. -/
theorem C9_filenames_witness :
    imC9.nc = 1 ∧ 1 ≤ imC9.nz ∧
    (∃ files c,
      write_dcm_dir genA 0 imC9 none = (some files, c) ∧
      files.length = imC9.nz ∧
      (∀ k (hk : k < files.length),
        (files.get ⟨k, hk⟩).1 = sliceName (clog10 imC9.nz) k) ∧
      (∀ k l (hk : k < files.length) (hl : l < files.length), k < l →
        List.Lex (· < ·) ((files.get ⟨k, hk⟩).1.data) ((files.get ⟨l, hl⟩).1.data)) ∧
      (imC9.nz = 150 → clog10 imC9.nz = 3)) :=
  ⟨rfl, by decide, C9_filenames genA 0 imC9 none rfl (by decide)⟩

/-- A file whose probes all succeed and pass the range checks constructs
exactly this valid record. -/
theorem Dicom.ofFile_complete (path : String) (f : DcmFile) (suid iraw : String)
    (ps st : ℚ)
    (hL : f.loadOk = true) (hS : f.seriesUID = some suid)
    (hI : f.instanceRaw = some iraw) (hOk : f.imageOk = true)
    (hM : f.isMonochrome = true) (hw : 1 ≤ f.width) (hh : 1 ≤ f.height)
    (hf : 1 ≤ f.frameCount) (hPS : f.pixelSpacing = some ps) (hps : 0 < ps)
    (hr : 0 < ps * f.heightWidthRatio) (hST : f.sliceThickness = some st)
    (hst : 0 < st) :
    Dicom.ofFile path f =
      { filename := path, seriesUID := suid, inst := atoll iraw,
        ux := ps, uy := ps * f.heightWidthRatio, uz := st,
        nx := f.width, ny := f.height, nz := f.frameCount, nc := 1,
        valid := true } := by
  unfold Dicom.ofFile
  rw [hL, hS, hI, hPS, hST]
  have hdim : ¬ (f.width < 1 ∨ f.height < 1 ∨ f.frameCount < 1) := by omega
  simp [hOk, hM, hdim, not_le.mpr hps, not_le.mpr hr, not_le.mpr hst]
  omega

/-- C8 amended: slice record construction is total — it always yields a
record — and the record is tagged valid exactly when the file loaded, the
series and instance number tags are present, the image opened monochrome,
every dimension is at least one, the pixel spacing parsed positive with
positive derived y spacing, and the slice thickness parsed positive. A
present but non-integer instance number string does NOT invalidate the
record: atoll parses it as 0, as the recorded counterexample shows. -/
theorem C8_validityCharacterization (path : String) (f : DcmFile) :
    (Dicom.ofFile path f).valid = true ↔
      (f.loadOk = true ∧ f.seriesUID.isSome = true ∧ f.instanceRaw.isSome = true ∧
       f.imageOk = true ∧ f.isMonochrome = true ∧
       1 ≤ f.width ∧ 1 ≤ f.height ∧ 1 ≤ f.frameCount ∧
       (∃ ps, f.pixelSpacing = some ps ∧ 0 < ps ∧ 0 < ps * f.heightWidthRatio) ∧
       (∃ st, f.sliceThickness = some st ∧ 0 < st)) := by
  constructor
  · intro hv
    unfold Dicom.ofFile at hv
    cases hL : f.loadOk
    · rw [hL] at hv; simp at hv
    · rw [hL] at hv
      cases hS : f.seriesUID
      · rw [hS] at hv; simp at hv
      · rw [hS] at hv
        cases hI : f.instanceRaw
        · rw [hI] at hv; simp at hv
        · rw [hI] at hv
          cases hOk : f.imageOk
          · rw [hOk] at hv; simp at hv
          · rw [hOk] at hv
            cases hM : f.isMonochrome
            · rw [hM] at hv; simp at hv
            · rw [hM] at hv
              simp only [Bool.true_eq_false, if_false, reduceIte] at hv
              by_cases hdim : f.width < 1 ∨ f.height < 1 ∨ f.frameCount < 1
              · rw [if_pos hdim] at hv; simp at hv
              · rw [if_neg hdim] at hv
                cases hPS : f.pixelSpacing
                · rw [hPS] at hv; simp at hv
                · rw [hPS] at hv
                  simp only [] at hv
                  rename_i ps
                  by_cases hps : ps ≤ 0
                  · rw [if_pos hps] at hv; simp at hv
                  · rw [if_neg hps] at hv
                    by_cases hr : ps * f.heightWidthRatio ≤ 0
                    · rw [if_pos hr] at hv; simp at hv
                    · rw [if_neg hr] at hv
                      cases hST : f.sliceThickness
                      · rw [hST] at hv; simp at hv
                      · rw [hST] at hv
                        simp only [] at hv
                        rename_i st
                        by_cases hst : st ≤ 0
                        · rw [if_pos hst] at hv; simp at hv
                        · refine ⟨rfl, by simp, by simp, rfl, rfl, by omega, by omega,
                            by omega, ⟨ps, rfl, by linarith, by linarith⟩,
                            ⟨st, rfl, by linarith⟩⟩
  · rintro ⟨hL, hS, hI, hOk, hM, hw, hh, hf, ⟨ps, hPS, hps, hr⟩, ⟨st, hST, hst⟩⟩
    obtain ⟨suid, hS2⟩ := Option.isSome_iff_exists.mp hS
    obtain ⟨iraw, hI2⟩ := Option.isSome_iff_exists.mp hI
    rw [Dicom.ofFile_complete path f suid iraw ps st hL hS2 hI2 hOk hM hw hh hf
      hPS hps hr hST hst]

/-- C10: write_dcm stores nx in the Rows tag and ny in the Columns tag,
while reading takes nx from the image width (the Columns tag) and ny from
the image height (the Rows tag); re-reading a written slice therefore
recovers nx as the original ny and ny as the original nx, transposed
whenever the two differ. -/
theorem C10_rowsColumnsTransposed (gen : Nat → String) (ctr : Nat) (im : Image)
    (meta : Option Dcm_meta) (decF : ℤ → ℚ) (path : String)
    (hc : im.nc = 1) (hx : 1 ≤ im.nx) (hy : 1 ≤ im.ny) (hz : 1 ≤ im.nz)
    (hux : 0 < im.ux) (huy : 0 < im.uy) (huz : 0 < im.uz) :
    ∃ wd c, write_dcm_cpp gen ctr im meta = (some wd, c) ∧
      wd.rows = im.nx ∧ wd.cols = im.ny ∧
      (Dicom.ofFile path (reread decF wd)).valid = true ∧
      (Dicom.ofFile path (reread decF wd)).nx = im.ny ∧
      (Dicom.ofFile path (reread decF wd)).ny = im.nx ∧
      (im.nx ≠ im.ny →
        ((Dicom.ofFile path (reread decF wd)).nx,
          (Dicom.ofFile path (reread decF wd)).ny) ≠ (im.nx, im.ny)) := by
  obtain ⟨wd, hw, hrows, hcols, hframes, -, -, -, -, hpsx, hpsy, hth, -⟩ :=
    write_dcm_cpp_some gen ctr im meta hc
  have hpsx0 : (0 : ℚ) < wd.psX := by rw [hpsx]; exact hux
  have hr : 0 < wd.psX * ((reread decF wd).heightWidthRatio) := by
    show 0 < wd.psX * (wd.psY / wd.psX)
    have hratio : wd.psX * (wd.psY / wd.psX) = wd.psY := by
      field_simp
    rw [hratio, hpsy]
    exact huy
  have hcomp := Dicom.ofFile_complete path (reread decF wd) wd.seriesUID
    (Nat.repr wd.instanceNum) wd.psX wd.thickness rfl rfl rfl rfl rfl
    (by simpa [reread, hcols] using hy) (by simpa [reread, hrows] using hx)
    (by simpa [reread, hframes] using hz) rfl hpsx0 hr rfl
    (by rw [hth]; exact huz)
  have hnx : (Dicom.ofFile path (reread decF wd)).nx = im.ny := by
    rw [hcomp]
    show wd.cols = im.ny
    exact hcols
  have hny : (Dicom.ofFile path (reread decF wd)).ny = im.nx := by
    rw [hcomp]
    show wd.rows = im.nx
    exact hrows
  refine ⟨wd, _, hw, hrows, hcols, by rw [hcomp], hnx, hny, ?_⟩
  intro hne heq
  apply hne
  have h1 := congrArg Prod.fst heq
  simp only at h1
  rw [hnx] at h1
  exact h1.symm

unseal Rat.mul Rat.add Rat.sub Rat.inv in
/-- C10 witness: the transposition evaluated on a 2 x 3 slice. -/
theorem C10_rowsColumnsTransposed_witness :
    imC10.nc = 1 ∧ 1 ≤ imC10.nx ∧ 1 ≤ imC10.ny ∧ 1 ≤ imC10.nz ∧
    0 < imC10.ux ∧ 0 < imC10.uy ∧ 0 < imC10.uz ∧
    (∃ wd c, write_dcm_cpp genA 0 imC10 none = (some wd, c) ∧
      wd.rows = imC10.nx ∧ wd.cols = imC10.ny ∧
      (Dicom.ofFile "s.dcm" (reread decId wd)).valid = true ∧
      (Dicom.ofFile "s.dcm" (reread decId wd)).nx = imC10.ny ∧
      (Dicom.ofFile "s.dcm" (reread decId wd)).ny = imC10.nx ∧
      (imC10.nx ≠ imC10.ny →
        ((Dicom.ofFile "s.dcm" (reread decId wd)).nx,
          (Dicom.ofFile "s.dcm" (reread decId wd)).ny) ≠ (imC10.nx, imC10.ny))) :=
  ⟨rfl, by decide, by decide, by decide, by decide, by decide, by decide,
    C10_rowsColumnsTransposed genA 0 imC10 none decId "s.dcm" rfl (by decide)
      (by decide) (by decide) (by decide) (by decide) (by decide)⟩
